import Mathlib

/-!
Verification of the AXML (Android binary XML) manifest encoder of
`manual_apk_builder.py`.  Bytes are modelled as `List Nat` (each element a
byte value), Python `struct.pack` fields as explicit little-endian byte
lists, Python exceptions as `Except String`, and the Python `dict` built by
the string pool as an insertion-ordered association list with overwrite
semantics.
-/

namespace ManualApkBuilder

/-- Little-endian byte of an unsigned 8-bit value (`struct.pack "<B"`). -/
def u8 (n : Nat) : List Nat := [n % 256]

/-- Little-endian bytes of an unsigned 16-bit value (`struct.pack "<H"`). -/
def u16le (n : Nat) : List Nat := [n % 256, n / 256 % 256]

/-- Little-endian bytes of an unsigned 32-bit value (`struct.pack "<I"`). -/
def u32le (n : Nat) : List Nat :=
  [n % 256, n / 256 % 256, n / 65536 % 256, n / 16777216 % 256]

/-- Read back a little-endian 16-bit value at offset `i` of a byte buffer. -/
def readU16 (buf : List Nat) (i : Nat) : Nat :=
  buf.getD i 0 + 256 * buf.getD (i + 1) 0

/-- Read back a little-endian 32-bit value at offset `i` of a byte buffer. -/
def readU32 (buf : List Nat) (i : Nat) : Nat :=
  buf.getD i 0 + 256 * buf.getD (i + 1) 0 + 65536 * buf.getD (i + 2) 0
    + 16777216 * buf.getD (i + 3) 0

-- Android XML / APK constants from the source header.
def RES_XML_TYPE : Nat := 0x0003
def RES_STRING_POOL_TYPE : Nat := 0x0001
def RES_XML_RESOURCE_MAP_TYPE : Nat := 0x0180
def RES_XML_START_NAMESPACE_TYPE : Nat := 0x0100
def RES_XML_END_NAMESPACE_TYPE : Nat := 0x0101
def RES_XML_START_ELEMENT_TYPE : Nat := 0x0102
def RES_XML_END_ELEMENT_TYPE : Nat := 0x0103
def DATA_TYPE_STRING : Nat := 0x03
def ANDROID_NAME_RESOURCE_ID : Nat := 0x01010003

/-- Model of `encode_length`: the AXML 1-or-2-byte variable-length encoding of a
string length.  Raising `ValueError` is modelled as `Except.error` with the
source's message. -/
def encode_length (value : Int) : Except String (List Nat) :=
  if value < 0 ∨ value > 0x3FFF then
    .error "value out of range for 1- or 2-byte encoding"
  else if value ≤ 0x7F then .ok [value.toNat]
  else .ok [(value.toNat &&& 0x7F) ||| 0x80, value.toNat >>> 7]

/-- UTF-8 encoding of one Unicode code point, as `text.encode("utf-8")`
produces it per character. -/
def utf8CharBytes (n : Nat) : List Nat :=
  if n < 0x80 then [n]
  else if n < 0x800 then [0xC0 + n / 64, 0x80 + n % 64]
  else if n < 0x10000 then [0xE0 + n / 4096, 0x80 + n / 64 % 64, 0x80 + n % 64]
  else [0xF0 + n / 262144, 0x80 + n / 4096 % 64, 0x80 + n / 64 % 64, 0x80 + n % 64]

/-- The UTF-8 bytes of a string (`text.encode("utf-8")`). -/
def utf8Bytes (s : String) : List Nat :=
  s.data.flatMap fun c => utf8CharBytes c.toNat

/-- The `for text in strings` loop of `build_string_pool`: threads the
offset table and the body through each iteration; `offsets.append(len(body))`
runs before the entry's bytes are appended. -/
def poolLoop : List Nat × List Nat → List String → Except String (List Nat × List Nat)
  | acc, [] => .ok acc
  | (offsets, body), text :: rest => do
    let encoded := utf8Bytes text
    let clen ← encode_length (text.length : Int)
    let blen ← encode_length (encoded.length : Int)
    poolLoop (offsets ++ [body.length], body ++ clen ++ blen ++ encoded ++ [0]) rest

/-- The `while len(body) % 4: body += b"\x00"` padding loop, in closed form:
append zero bytes until the length is a multiple of 4.  The loop recurrence it
satisfies is proved below as `padWhile_eq`. -/
def padWhile (body : List Nat) : List Nat :=
  body ++ List.replicate ((4 - body.length % 4) % 4) 0

/-- Python `dict` assignment `d[k] = v`: overwrite in place if the key is
present, append otherwise (insertion order preserved). -/
def dictSet (d : List (String × Nat)) (k : String) (v : Nat) : List (String × Nat) :=
  if d.any fun p => p.1 == k then d.map fun p => if p.1 == k then (p.1, v) else p
  else d ++ [(k, v)]

/-- The dict comprehension `{text: index for index, text in enumerate(strings)}`,
built by successive dict assignment with a running index. -/
def makeMappingAux : List (String × Nat) → Nat → List String → List (String × Nat)
  | d, _, [] => d
  | d, i, t :: ts => makeMappingAux (dictSet d t i) (i + 1) ts

/-- The string→index mapping returned by `build_string_pool`. -/
def makeMapping (strings : List String) : List (String × Nat) :=
  makeMappingAux [] 0 strings

/-- Model of `build_string_pool`: serializes the string pool chunk and returns it with
the string→index mapping. -/
def build_string_pool (strings : List String) :
    Except String (List Nat × List (String × Nat)) := do
  let header_size := 28
  let flags_utf8 := 0x00000100
  let (offsets, body0) ← poolLoop ([], []) strings
  let body := padWhile body0
  let strings_start := header_size + strings.length * 4
  let chunk_size := strings_start + body.length
  let header := u16le RES_STRING_POOL_TYPE ++ u16le header_size ++ u32le chunk_size
  let chunk := header ++ u32le strings.length ++ u32le 0 ++ u32le flags_utf8
    ++ u32le strings_start ++ u32le 0 ++ offsets.flatMap u32le ++ body
  return (chunk, makeMapping strings)

/-- Model of `build_resource_map`: fixed 8-byte header followed by one little-endian
32-bit word per resource id, in input order. -/
def build_resource_map (resource_ids : List Nat) : List Nat :=
  u16le RES_XML_RESOURCE_MAP_TYPE ++ u16le 8 ++ u32le (8 + 4 * resource_ids.length)
    ++ resource_ids.flatMap u32le

/-- Model of `namespace_chunk`: start or end namespace chunk, 24 bytes. -/
def namespace_chunk (chunk_type prefix_index uri_index : Nat) : List Nat :=
  u16le chunk_type ++ u16le 0x18 ++ u32le 0x18 ++ u32le 0 ++ u32le 0
    ++ u32le prefix_index ++ u32le uri_index

/-- The `x if x is not None else 0xFFFFFFFF` conditional used for optional
pool indices. -/
def optIdx : Option Nat → Nat
  | some i => i
  | none => 0xFFFFFFFF

/-- An attribute as passed to `start_element_chunk`:
`(attr_ns, attr_name, raw_index, (data_type, data_value))`. -/
abbrev Attr := Option Nat × Nat × Option Nat × (Nat × Nat)

/-- Model of `start_element_chunk`: 36-byte header, then the attribute loop appending
one 20-byte record per attribute. -/
def start_element_chunk (ns_index : Option Nat) (name_index : Nat)
    (attributes : List Attr) : List Nat :=
  let header_size := 0x24
  let attribute_size := 0x14
  let chunk_size := header_size + attribute_size * attributes.length
  let chunk := u16le RES_XML_START_ELEMENT_TYPE ++ u16le header_size ++ u32le chunk_size
    ++ u32le 0 ++ u32le 0
    ++ u32le (optIdx ns_index) ++ u32le name_index
    ++ u16le 0x14 ++ u16le 0x14 ++ u16le attributes.length ++ u16le 0 ++ u16le 0 ++ u16le 0
  attributes.foldl (fun chunk a =>
    match a with
    | (attr_ns, attr_name, raw_index, (data_type, data_value)) =>
      chunk ++ u32le (optIdx attr_ns) ++ u32le attr_name ++ u32le (optIdx raw_index)
        ++ u16le 8 ++ u8 0 ++ u8 data_type ++ u32le data_value) chunk

/-- Model of `end_element_chunk`: fixed 24-byte end-element chunk. -/
def end_element_chunk (ns_index : Option Nat) (name_index : Nat) : List Nat :=
  u16le RES_XML_END_ELEMENT_TYPE ++ u16le 0x18 ++ u32le 0x18 ++ u32le 0 ++ u32le 0
    ++ u32le (optIdx ns_index) ++ u32le name_index

/-- The fixed string list of `build_manifest`. -/
def manifestStrings : List String :=
  [ "manifest",
    "http://schemas.android.com/apk/res/android",
    "android",
    "package",
    "application",
    "activity",
    "intent-filter",
    "action",
    "category",
    "name",
    "com.tencent.mm",
    "com.tencent.mm.ui.MainTabUI",
    "android.intent.action.MAIN",
    "android.intent.category.LAUNCHER" ]

/-- Lookup `indexes[k]` on the returned mapping; a missing key is Python's
`KeyError`. -/
def dictGet (d : List (String × Nat)) (k : String) : Except String Nat :=
  match d.lookup k with
  | some v => .ok v
  | none => .error "KeyError"

/-- The `manifest` chunk list assembled by `build_manifest`, in emission
order, before concatenation. -/
def manifestChunks : Except String (List (List Nat)) := do
  let (string_pool, indexes) ← build_string_pool manifestStrings
  let res_map := build_resource_map [ANDROID_NAME_RESOURCE_ID]
  let ns_uri ← dictGet indexes "http://schemas.android.com/apk/res/android"
  let nsPfx ← dictGet indexes "android"
  let iManifest ← dictGet indexes "manifest"
  let iPackage ← dictGet indexes "package"
  let iApplication ← dictGet indexes "application"
  let iActivity ← dictGet indexes "activity"
  let iIntentFilter ← dictGet indexes "intent-filter"
  let iAction ← dictGet indexes "action"
  let iCategory ← dictGet indexes "category"
  let iName ← dictGet indexes "name"
  let iPkgValue ← dictGet indexes "com.tencent.mm"
  let iActValue ← dictGet indexes "com.tencent.mm.ui.MainTabUI"
  let iMain ← dictGet indexes "android.intent.action.MAIN"
  let iLauncher ← dictGet indexes "android.intent.category.LAUNCHER"
  return [ string_pool, res_map,
    namespace_chunk RES_XML_START_NAMESPACE_TYPE nsPfx ns_uri,
    start_element_chunk none iManifest
      [(none, iPackage, some iPkgValue, (DATA_TYPE_STRING, iPkgValue))],
    start_element_chunk none iApplication [],
    start_element_chunk (some ns_uri) iActivity
      [(some ns_uri, iName, some iActValue, (DATA_TYPE_STRING, iActValue))],
    start_element_chunk none iIntentFilter [],
    start_element_chunk (some ns_uri) iAction
      [(some ns_uri, iName, some iMain, (DATA_TYPE_STRING, iMain))],
    end_element_chunk (some ns_uri) iAction,
    start_element_chunk (some ns_uri) iCategory
      [(some ns_uri, iName, some iLauncher, (DATA_TYPE_STRING, iLauncher))],
    end_element_chunk (some ns_uri) iCategory,
    end_element_chunk none iIntentFilter,
    end_element_chunk (some ns_uri) iActivity,
    end_element_chunk none iApplication,
    end_element_chunk none iManifest,
    namespace_chunk RES_XML_END_NAMESPACE_TYPE nsPfx ns_uri ]

/-- Model of `build_manifest`: joins the chunk list and wraps it in the outer
`RES_XML_TYPE` chunk whose total size is the payload length plus 8. -/
def build_manifest : Except String (List Nat) := do
  let chunks ← manifestChunks
  let payload := chunks.flatten
  return u16le RES_XML_TYPE ++ u16le 8 ++ u32le (payload.length + 8) ++ payload

/-- One invocation of the encoder on the fixed manifest; used to compare two
separate invocations. -/
def build_manifest_run (_ : Unit) : Except String (List Nat) := build_manifest

/-- Whether an encode attempt produced a buffer. -/
def exceptOk {α : Type} : Except String α → Bool
  | .ok _ => true
  | .error _ => false

/-- Decoder of the 1-or-2-byte length scheme: a high bit clear means a
one-byte length; a set high bit means the low 7 bits are the low bits and the
second byte holds the high bits. -/
def decode_length : List Nat → Option Nat
  | [b] => if b < 0x80 then some b else none
  | [b1, b2] => if 0x80 ≤ b1 then some (b1 % 128 + 128 * b2) else none
  | _ => none

/-- Spec-side shape of one pool-body entry: character-length encoding,
byte-length encoding, the UTF-8 bytes, then a single `0x00` terminator. -/
def entryBytes (text : String) : Except String (List Nat) := do
  let clen ← encode_length (text.length : Int)
  let blen ← encode_length ((utf8Bytes text).length : Int)
  return clen ++ blen ++ utf8Bytes text ++ [0]

/-- All pool-body entries, in input order. -/
def entriesOf : List String → Except String (List (List Nat))
  | [] => .ok []
  | t :: ts => do
    let e ← entryBytes t
    let es ← entriesOf ts
    return e :: es

/-- Spec-side offset table: each entry's offset is the running total of the
byte lengths of the entries before it. -/
def offsetsFrom (start : Nat) : List (List Nat) → List Nat
  | [] => []
  | e :: es => start :: offsetsFrom (start + e.length) es

/-- The association list pairing each string with its running index, used to
characterize the dict comprehension on duplicate-free input. -/
def pairsFrom (i : Nat) : List String → List (String × Nat)
  | [] => []
  | t :: ts => (t, i) :: pairsFrom (i + 1) ts

/-- Spec-side 20-byte attribute record: namespace index (sentinel-or-index),
name index, raw-value index (sentinel-or-index), size 8, reserved byte 0,
data type, data value, in that exact field order. -/
def attrRecordSpec (a : Attr) : List Nat :=
  u32le (optIdx a.1) ++ u32le a.2.1 ++ u32le (optIdx a.2.2.1)
    ++ u16le 8 ++ u8 0 ++ u8 a.2.2.2.1 ++ u32le a.2.2.2.2

/-- Spec-side element start chunk: a 36-byte header followed by the 20-byte
attribute records. -/
def startElementSpec (ns : Option Nat) (name : Nat) (attrs : List Attr) : List Nat :=
  u16le RES_XML_START_ELEMENT_TYPE ++ u16le 36 ++ u32le (36 + 20 * attrs.length)
    ++ u32le 0 ++ u32le 0 ++ u32le (optIdx ns) ++ u32le name
    ++ u16le 20 ++ u16le 20 ++ u16le attrs.length ++ u16le 0 ++ u16le 0 ++ u16le 0
    ++ attrs.flatMap attrRecordSpec

/-- Extract, from each element start/end chunk of a chunk list, the triple
of chunk type, namespace index and name index, read back from the bytes. -/
def elemSigs (cs : List (List Nat)) : List (Nat × Nat × Nat) :=
  (cs.filter fun c => readU16 c 0 == RES_XML_START_ELEMENT_TYPE
      || readU16 c 0 == RES_XML_END_ELEMENT_TYPE).map
    fun c => (readU16 c 0, readU32 c 16, readU32 c 20)

/-- Stack-based matching of element start/end triples: every start is closed
by exactly one later end carrying identical namespace and name indices, in
LIFO order. -/
def balancedChk : List (Nat × Nat) → List (Nat × Nat × Nat) → Bool
  | [], [] => true
  | _ :: _, [] => false
  | stack, (t, ns, nm) :: rest =>
    if t == RES_XML_START_ELEMENT_TYPE then balancedChk ((ns, nm) :: stack) rest
    else if t == RES_XML_END_ELEMENT_TYPE then
      match stack with
      | [] => false
      | (ns2, nm2) :: stack2 => ns2 == ns && nm2 == nm && balancedChk stack2 rest
    else false

/-- Walk the nested chunks of a document buffer from byte offset `pos`,
checking that every chunk starts 4-byte aligned, declares a positive total
size that is a multiple of 4, and that the chunks tile the buffer exactly. -/
def alignWalk (buf : List Nat) : Nat → Nat → Bool
  | _, 0 => false
  | pos, fuel + 1 =>
    if pos == buf.length then true
    else
      decide (pos % 4 = 0) && decide (readU32 buf (pos + 4) % 4 = 0)
        && decide (0 < readU32 buf (pos + 4))
        && decide (pos + readU32 buf (pos + 4) ≤ buf.length)
        && alignWalk buf (pos + readU32 buf (pos + 4)) fuel

set_option maxRecDepth 8000

/-! Helper lemmas. -/

/-- The closed-form padding satisfies the source's while-loop recurrence:
keep appending a zero byte while the length is not a multiple of 4. -/
theorem padWhile_eq (body : List Nat) :
    padWhile body = if body.length % 4 = 0 then body else padWhile (body ++ [0]) := by
  unfold padWhile
  by_cases h : body.length % 4 = 0
  · simp [h]
  · rw [if_neg h]
    have hk : (4 - body.length % 4) % 4
        = (4 - (body.length + 1) % 4) % 4 + 1 := by omega
    rw [hk]
    simp [List.replicate_succ, List.length_append]

theorem padWhile_close (body : List Nat) :
    ∃ k, k < 4 ∧ padWhile body = body ++ List.replicate k 0
      ∧ (body.length + k) % 4 = 0 := by
  refine ⟨(4 - body.length % 4) % 4, by omega, rfl, by omega⟩

theorem encode_length_ok_small (n : Int) (h0 : 0 ≤ n) (h1 : n ≤ 0x7F) :
    encode_length n = .ok [n.toNat] := by
  unfold encode_length
  rw [if_neg (by omega), if_pos h1]

theorem encode_length_ok_two (n : Int) (h0 : 0x80 ≤ n) (h1 : n ≤ 0x3FFF) :
    encode_length n = .ok [(n.toNat &&& 0x7F) ||| 0x80, n.toNat >>> 7] := by
  unfold encode_length
  rw [if_neg (by omega), if_neg (by omega)]

theorem encode_length_err (n : Int) (h : n < 0 ∨ 0x3FFF < n) :
    encode_length n = .error "value out of range for 1- or 2-byte encoding" := by
  unfold encode_length
  rw [if_pos h]

theorem encode_length_error_msg (n : Int) (e : String)
    (h : encode_length n = .error e) :
    e = "value out of range for 1- or 2-byte encoding" := by
  unfold encode_length at h
  split_ifs at h
  simp_all

theorem nat_and_127 (m : Nat) : m &&& 127 = m % 128 := by
  simpa using Nat.and_pow_two_sub_one_eq_mod m 7

theorem nat_or_128 {x : Nat} (h : x < 128) : x ||| 128 = x + 128 := by
  have hb : ∀ y : Fin 128, (y : Nat) ||| 128 = (y : Nat) + 128 := by decide
  exact hb ⟨x, h⟩

theorem nat_shr_7 (m : Nat) : m >>> 7 = m / 128 := by
  simpa using Nat.shiftRight_eq_div_pow m 7

/-! Claim theorems. -/

/-- C4: `encode_length n` fails with the range error exactly when `n < 0` or
`n > 0x3FFF`; for `0 ≤ n ≤ 0x7F` it returns the single byte `n`; for
`0x80 ≤ n ≤ 0x3FFF` it returns `(n &&& 0x7F) ||| 0x80` then `n >>> 7`; in both
success cases decoding the emitted bytes recovers `n`. -/
theorem encode_length_spec (n : Int) :
    ((∃ e, encode_length n = .error e) ↔ n < 0 ∨ 0x3FFF < n)
    ∧ (0 ≤ n → n ≤ 0x7F → encode_length n = .ok [n.toNat])
    ∧ (0x80 ≤ n → n ≤ 0x3FFF →
        encode_length n = .ok [(n.toNat &&& 0x7F) ||| 0x80, n.toNat >>> 7])
    ∧ (∀ bs, encode_length n = .ok bs → decode_length bs = some n.toNat) := by
  refine ⟨⟨?_, ?_⟩, encode_length_ok_small n, encode_length_ok_two n, ?_⟩
  · rintro ⟨e, he⟩
    by_contra hc
    push_neg at hc
    rcases le_or_lt n 0x7F with h | h
    · rw [encode_length_ok_small n (by omega) h] at he
      simp at he
    · rw [encode_length_ok_two n (by omega) (by omega)] at he
      simp at he
  · intro h
    exact ⟨_, encode_length_err n h⟩
  · intro bs hbs
    rcases lt_or_le n 0 with h0 | h0
    · rw [encode_length_err n (Or.inl h0)] at hbs; simp at hbs
    rcases le_or_lt n 0x7F with h1 | h1
    · rw [encode_length_ok_small n h0 h1] at hbs
      obtain rfl : bs = [n.toNat] := by simpa using hbs.symm
      have hlt : n.toNat < 0x80 := by omega
      simp [decode_length, hlt]
    rcases le_or_lt n 0x3FFF with h2 | h2
    · rw [encode_length_ok_two n (by omega) h2] at hbs
      obtain rfl : bs = [(n.toNat &&& 0x7F) ||| 0x80, n.toNat >>> 7] := by
        simpa using hbs.symm
      have hmod : n.toNat &&& 0x7F = n.toNat % 128 := nat_and_127 n.toNat
      have hor : n.toNat % 128 ||| 128 = n.toNat % 128 + 128 :=
        nat_or_128 (Nat.mod_lt _ (by omega))
      rw [decode_length, hmod, hor, nat_shr_7]
      rw [if_pos (by omega)]
      congr 1
      omega
    · rw [encode_length_err n (Or.inr h2)] at hbs; simp at hbs

/-- Witness for C4 at concrete inputs 5 (one byte) and 300 (two bytes). -/
theorem encode_length_spec_witness :
    encode_length 5 = .ok [5] ∧ encode_length 300 = .ok [172, 2]
      ∧ decode_length [172, 2] = some 300 := by
  have h1 := (encode_length_spec 5).2.1 (by norm_num) (by norm_num)
  have h2 := (encode_length_spec 300).2.2.1 (by norm_num) (by norm_num)
  have e2 : encode_length 300 = .ok [172, 2] := by rw [h2]; rfl
  have h3 := (encode_length_spec 300).2.2.2 [172, 2] e2
  refine ⟨by simpa using h1, e2, by rw [h3]; rfl⟩

theorem poolLoop_step_err_one (offsets body : List Nat) (t : String)
    (ts : List String) (e1 : String)
    (h1 : encode_length (t.length : Int) = .error e1) :
    poolLoop (offsets, body) (t :: ts) = .error e1 := by
  rw [poolLoop, h1]
  rfl

theorem poolLoop_step_err_two (offsets body : List Nat) (t : String)
    (ts : List String) (clen : List Nat) (e2 : String)
    (h1 : encode_length (t.length : Int) = .ok clen)
    (h2 : encode_length ((utf8Bytes t).length : Int) = .error e2) :
    poolLoop (offsets, body) (t :: ts) = .error e2 := by
  rw [poolLoop, h1, h2]
  rfl

theorem poolLoop_step_ok (offsets body : List Nat) (t : String)
    (ts : List String) (clen blen : List Nat)
    (h1 : encode_length (t.length : Int) = .ok clen)
    (h2 : encode_length ((utf8Bytes t).length : Int) = .ok blen) :
    poolLoop (offsets, body) (t :: ts)
      = poolLoop (offsets ++ [body.length],
          body ++ clen ++ blen ++ utf8Bytes t ++ [0]) ts := by
  rw [poolLoop, h1, h2]
  rfl

theorem poolLoop_error_msg :
    ∀ (l : List String) (acc : List Nat × List Nat) (e : String),
      poolLoop acc l = .error e →
      e = "value out of range for 1- or 2-byte encoding" := by
  intro l
  induction l with
  | nil =>
    intro acc e h
    simp [poolLoop] at h
  | cons t ts ih =>
    intro acc e h
    obtain ⟨offsets, body⟩ := acc
    cases h1 : encode_length (t.length : Int) with
    | error e1 =>
      rw [poolLoop_step_err_one offsets body t ts e1 h1] at h
      cases h
      exact encode_length_error_msg _ _ h1
    | ok clen =>
      cases h2 : encode_length ((utf8Bytes t).length : Int) with
      | error e2 =>
        rw [poolLoop_step_err_two offsets body t ts clen e2 h1 h2] at h
        cases h
        exact encode_length_error_msg _ _ h2
      | ok blen =>
        rw [poolLoop_step_ok offsets body t ts clen blen h1 h2] at h
        exact ih _ _ h

theorem poolLoop_no_ok :
    ∀ (l : List String), (∃ s ∈ l, 0x3FFF < s.length) →
      ∀ (acc : List Nat × List Nat) (out : List Nat × List Nat),
        poolLoop acc l ≠ .ok out := by
  intro l
  induction l with
  | nil =>
    rintro ⟨s, hs, _⟩
    simp at hs
  | cons t ts ih =>
    rintro ⟨s, hs, hlen⟩ ⟨offsets, body⟩ out h
    rcases List.mem_cons.mp hs with rfl | hmem
    · rw [poolLoop_step_err_one offsets body s ts _
        (encode_length_err (s.length : Int)
          (Or.inr (by exact_mod_cast hlen)))] at h
      cases h
    · cases h1 : encode_length (t.length : Int) with
      | error e1 =>
        rw [poolLoop_step_err_one offsets body t ts e1 h1] at h
        cases h
      | ok clen =>
        cases h2 : encode_length ((utf8Bytes t).length : Int) with
        | error e2 =>
          rw [poolLoop_step_err_two offsets body t ts clen e2 h1 h2] at h
          cases h
        | ok blen =>
          rw [poolLoop_step_ok offsets body t ts clen blen h1 h2] at h
          exact ih ⟨s, hmem, hlen⟩ _ out h

/-- C5: if some input string's length exceeds `0x3FFF`, `build_string_pool`
fails with the encoding range error and returns no output buffer at all. -/
theorem pool_range_error (strings : List String)
    (h : ∃ s ∈ strings, 0x3FFF < s.length) :
    build_string_pool strings
      = .error "value out of range for 1- or 2-byte encoding" := by
  cases hp : poolLoop ([], []) strings with
  | ok p => exact absurd hp (poolLoop_no_ok strings h ([], []) p)
  | error e =>
    obtain rfl := poolLoop_error_msg strings ([], []) e hp
    unfold build_string_pool
    rw [hp]
    rfl

/-- Witness for C5: a single string of 16384 characters. -/
theorem pool_range_error_witness :
    build_string_pool [String.mk (List.replicate 16384 'a')]
      = .error "value out of range for 1- or 2-byte encoding" := by
  apply pool_range_error
  refine ⟨String.mk (List.replicate 16384 'a'), List.mem_singleton.mpr rfl, ?_⟩
  show 0x3FFF < (List.replicate 16384 'a').length
  rw [List.length_replicate]
  norm_num

theorem entryBytes_err_one (t : String) (e1 : String)
    (h1 : encode_length (t.length : Int) = .error e1) :
    entryBytes t = .error e1 := by
  rw [entryBytes, h1]
  rfl

theorem entryBytes_err_two (t : String) (clen : List Nat) (e2 : String)
    (h1 : encode_length (t.length : Int) = .ok clen)
    (h2 : encode_length ((utf8Bytes t).length : Int) = .error e2) :
    entryBytes t = .error e2 := by
  rw [entryBytes, h1, h2]
  rfl

theorem entryBytes_ok (t : String) (clen blen : List Nat)
    (h1 : encode_length (t.length : Int) = .ok clen)
    (h2 : encode_length ((utf8Bytes t).length : Int) = .ok blen) :
    entryBytes t = .ok (clen ++ blen ++ utf8Bytes t ++ [0]) := by
  rw [entryBytes, h1, h2]
  rfl

theorem entriesOf_cons_err (t : String) (ts : List String) (e : String)
    (h : entryBytes t = .error e) : entriesOf (t :: ts) = .error e := by
  rw [entriesOf, h]
  rfl

theorem entriesOf_cons_ok (t : String) (ts : List String) (e : List Nat)
    (h : entryBytes t = .ok e) :
    entriesOf (t :: ts) = (entriesOf ts).map fun es => e :: es := by
  rw [entriesOf, h]
  cases h3 : entriesOf ts with
  | error e2 => rfl
  | ok es => rfl

theorem entriesOf_length :
    ∀ (l : List String) (es : List (List Nat)),
      entriesOf l = .ok es → es.length = l.length := by
  intro l
  induction l with
  | nil =>
    intro es h
    rw [show entriesOf [] = Except.ok [] from rfl] at h
    cases h
    rfl
  | cons t ts ih =>
    intro es h
    cases h1 : entryBytes t with
    | error e =>
      rw [entriesOf_cons_err t ts e h1] at h
      cases h
    | ok e0 =>
      rw [entriesOf_cons_ok t ts e0 h1] at h
      cases h3 : entriesOf ts with
      | error e2 =>
        rw [h3] at h
        simp only [Except.map] at h
        cases h
      | ok es2 =>
        rw [h3] at h
        simp only [Except.map] at h
        cases h
        simp [ih es2 h3]

theorem poolLoop_entries :
    ∀ (l : List String) (offsets body : List Nat),
      poolLoop (offsets, body) l = (entriesOf l).map fun es =>
        (offsets ++ offsetsFrom body.length es, body ++ es.flatten) := by
  intro l
  induction l with
  | nil =>
    intro offsets body
    simp [poolLoop, entriesOf, offsetsFrom, Except.map]
  | cons t ts ih =>
    intro offsets body
    cases h1 : encode_length (t.length : Int) with
    | error e1 =>
      rw [poolLoop_step_err_one offsets body t ts e1 h1,
        entriesOf_cons_err t ts e1 (entryBytes_err_one t e1 h1)]
      rfl
    | ok clen =>
      cases h2 : encode_length ((utf8Bytes t).length : Int) with
      | error e2 =>
        rw [poolLoop_step_err_two offsets body t ts clen e2 h1 h2,
          entriesOf_cons_err t ts e2 (entryBytes_err_two t clen e2 h1 h2)]
        rfl
      | ok blen =>
        rw [poolLoop_step_ok offsets body t ts clen blen h1 h2, ih,
          entriesOf_cons_ok t ts _ (entryBytes_ok t clen blen h1 h2)]
        cases h3 : entriesOf ts with
        | error e => rfl
        | ok es =>
          simp only [Except.map]
          have hlen : (body ++ clen ++ blen ++ utf8Bytes t ++ [0]).length
              = body.length + (clen ++ blen ++ utf8Bytes t ++ [0]).length := by
            simp only [List.length_append, List.length_cons, List.length_nil]
            omega
          rw [hlen]
          simp [offsetsFrom, List.append_assoc]

theorem build_string_pool_eq (strings : List String) :
    build_string_pool strings = (entriesOf strings).map fun es =>
      (u16le RES_STRING_POOL_TYPE ++ u16le 28
        ++ u32le (28 + strings.length * 4 + (padWhile es.flatten).length)
        ++ u32le strings.length ++ u32le 0 ++ u32le 0x00000100
        ++ u32le (28 + strings.length * 4) ++ u32le 0
        ++ (offsetsFrom 0 es).flatMap u32le ++ padWhile es.flatten,
       makeMapping strings) := by
  unfold build_string_pool
  rw [poolLoop_entries strings [] []]
  cases h3 : entriesOf strings with
  | error e => rfl
  | ok es => rfl

/-- C6: the pool body is, per string in order, its character-length and
byte-length encodings, its UTF-8 bytes and one `0x00` terminator; each offset
is the byte offset within the body where the entry's length encoding begins;
there is no padding between consecutive entries and the zero-padding to a
4-byte boundary comes only after the final one. -/
theorem string_pool_layout (strings : List String) :
    (build_string_pool strings = (entriesOf strings).map fun es =>
      (u16le RES_STRING_POOL_TYPE ++ u16le 28
        ++ u32le (28 + strings.length * 4 + (padWhile es.flatten).length)
        ++ u32le strings.length ++ u32le 0 ++ u32le 0x00000100
        ++ u32le (28 + strings.length * 4) ++ u32le 0
        ++ (offsetsFrom 0 es).flatMap u32le ++ padWhile es.flatten,
       makeMapping strings))
    ∧ (∀ text clen blen, encode_length (text.length : Int) = .ok clen →
        encode_length ((utf8Bytes text).length : Int) = .ok blen →
        entryBytes text = .ok (clen ++ blen ++ utf8Bytes text ++ [0]))
    ∧ (∀ body, ∃ k, k < 4 ∧ padWhile body = body ++ List.replicate k 0
        ∧ (body.length + k) % 4 = 0) :=
  ⟨build_string_pool_eq strings,
   fun t c b h1 h2 => entryBytes_ok t c b h1 h2,
   padWhile_close⟩

/-- Witness for C6 at the concrete input `["ab"]`. -/
theorem string_pool_layout_witness :
    entryBytes "ab" = .ok ([2] ++ [2] ++ utf8Bytes "ab" ++ [0])
    ∧ ∃ k, k < 4
        ∧ padWhile [2, 2, 97, 98, 0] = [2, 2, 97, 98, 0] ++ List.replicate k 0
        ∧ ([2, 2, 97, 98, 0].length + k) % 4 = 0 := by
  have h := string_pool_layout ["ab"]
  exact ⟨h.2.1 "ab" [2] [2] rfl rfl, h.2.2 [2, 2, 97, 98, 0]⟩

theorem dictSet_of_not_mem (d : List (String × Nat)) (k : String) (v : Nat)
    (h : ∀ p ∈ d, p.1 ≠ k) : dictSet d k v = d ++ [(k, v)] := by
  unfold dictSet
  have hany : (d.any fun p => p.1 == k) = false := by
    rw [List.any_eq_false]
    intro p hp
    simpa using h p hp
  rw [hany]
  rfl

theorem makeMappingAux_nodup :
    ∀ (ts : List String) (d : List (String × Nat)) (i : Nat),
      ts.Nodup → (∀ t ∈ ts, ∀ p ∈ d, p.1 ≠ t) →
      makeMappingAux d i ts = d ++ pairsFrom i ts := by
  intro ts
  induction ts with
  | nil =>
    intro d i _ _
    simp [makeMappingAux, pairsFrom]
  | cons t ts ih =>
    intro d i hnd hdisj
    rw [makeMappingAux, pairsFrom,
      dictSet_of_not_mem d t i (hdisj t (List.mem_cons_self t ts))]
    rw [ih (d ++ [(t, i)]) (i + 1) (List.nodup_cons.mp hnd).2 ?_]
    · simp
    · intro u hu p hp
      rcases List.mem_append.mp hp with hpd | hpt
      · exact hdisj u (List.mem_cons_of_mem t hu) p hpd
      · have hpt2 : p = (t, i) := by simpa using hpt
        subst hpt2
        intro hcontra
        have ht : t = u := hcontra
        exact (List.nodup_cons.mp hnd).1 (ht ▸ hu)

theorem lookup_pairsFrom :
    ∀ (ts : List String) (i j : Nat) (hj : j < ts.length), ts.Nodup →
      (pairsFrom i ts).lookup (ts.get ⟨j, hj⟩) = some (i + j) := by
  intro ts
  induction ts with
  | nil =>
    intro i j hj
    simp at hj
  | cons t ts ih =>
    intro i j hj hnd
    cases j with
    | zero =>
      simp [pairsFrom, List.lookup]
    | succ j =>
      have hj2 : j < ts.length := by simpa using hj
      have hkey : (t :: ts).get ⟨j + 1, hj⟩ = ts.get ⟨j, hj2⟩ := rfl
      have hne : ts.get ⟨j, hj2⟩ ≠ t := by
        intro hcontra
        exact (List.nodup_cons.mp hnd).1 (hcontra ▸ List.get_mem ts j hj2)
      have hbeq : (ts.get ⟨j, hj2⟩ == t) = false := by
        simpa using hne
      simp only [hkey, pairsFrom, List.lookup, hbeq]
      rw [ih (i + 1) j hj2 (List.nodup_cons.mp hnd).2]
      congr 1
      omega

theorem makeMapping_lookup (strings : List String) (hnd : strings.Nodup)
    (j : Nat) (hj : j < strings.length) :
    (makeMapping strings).lookup (strings.get ⟨j, hj⟩) = some j := by
  unfold makeMapping
  rw [makeMappingAux_nodup strings [] 0 hnd (by simp)]
  simpa using lookup_pairsFrom strings 0 j hj hnd

/-- Counterexample for C3: on the input `["a", "x", "a"]`, the serialized
pool records three strings (the duplicate is not collapsed) and the mapping
sends `"a"` to 2, the index of its last occurrence, not 0, its first. -/
theorem string_pool_dedup_cex :
    ((build_string_pool ["a", "x", "a"]).map fun p => (readU32 p.1 8, p.2.lookup "a"))
      = .ok (3, some 2)
    ∧ ((build_string_pool ["a", "x", "a"]).map fun p => (readU32 p.1 8, p.2.lookup "a"))
      ≠ .ok (2, some 0) := by
  constructor
  · rfl
  · intro h
    rw [show ((build_string_pool ["a", "x", "a"]).map fun p =>
        (readU32 p.1 8, p.2.lookup "a")) = .ok (3, some 2) from rfl] at h
    simp at h

/-- C3 (amended): `build_string_pool` does not deduplicate — it serializes
one pool entry per input occurrence, so the entry list has exactly the input
length; on a duplicate-free input the returned mapping sends each string to
its position (with duplicates, the dict overwrite keeps the last index, as
the counterexample shows). -/
theorem string_pool_no_dedup (strings : List String) (chunk : List Nat)
    (m : List (String × Nat))
    (hok : build_string_pool strings = .ok (chunk, m))
    (hnd : strings.Nodup) :
    (∃ es, entriesOf strings = .ok es ∧ es.length = strings.length)
    ∧ m = makeMapping strings
    ∧ ∀ j (hj : j < strings.length),
        m.lookup (strings.get ⟨j, hj⟩) = some j := by
  rw [build_string_pool_eq] at hok
  cases h3 : entriesOf strings with
  | error e =>
    rw [h3] at hok
    simp only [Except.map] at hok
    cases hok
  | ok es =>
    rw [h3] at hok
    simp only [Except.map] at hok
    cases hok
    refine ⟨⟨es, rfl, entriesOf_length strings es h3⟩, rfl, ?_⟩
    intro j hj
    exact makeMapping_lookup strings hnd j hj

/-- Witness for C3's amended theorem at the concrete input `["a", "x"]`. -/
theorem string_pool_no_dedup_witness :
    (∃ es, entriesOf ["a", "x"] = .ok es ∧ es.length = 2)
    ∧ (makeMapping ["a", "x"]).lookup "x" = some 1 := by
  have h := string_pool_no_dedup ["a", "x"] _ _ rfl (by decide)
  have h3 := h.2.2 1 (by decide)
  rw [h.2.1] at h3
  exact ⟨by simpa using h.1, by simpa using h3⟩

theorem foldl_append_flatMap (f : Attr → List Nat) :
    ∀ (l : List Attr) (acc : List Nat),
      l.foldl (fun b a => b ++ f a) acc = acc ++ l.flatMap f := by
  intro l
  induction l with
  | nil => intro acc; simp
  | cons a l ih =>
    intro acc
    simp [List.foldl_cons, ih, List.append_assoc]

theorem attrRecordSpec_length (a : Attr) : (attrRecordSpec a).length = 20 := by
  simp [attrRecordSpec, u32le, u16le, u8]

theorem flatMap_attrRecord_length (l : List Attr) :
    (l.flatMap attrRecordSpec).length = 20 * l.length := by
  induction l with
  | nil => simp
  | cons a l ih =>
    simp only [List.flatMap_cons, List.length_append, ih, attrRecordSpec_length,
      List.length_cons]
    omega

theorem start_element_chunk_eq (ns : Option Nat) (name : Nat)
    (attrs : List Attr) :
    start_element_chunk ns name attrs = startElementSpec ns name attrs := by
  unfold start_element_chunk startElementSpec
  have hfun : (fun (chunk : List Nat) (a : Attr) =>
      match a with
      | (attr_ns, attr_name, raw_index, (data_type, data_value)) =>
        chunk ++ u32le (optIdx attr_ns) ++ u32le attr_name ++ u32le (optIdx raw_index)
          ++ u16le 8 ++ u8 0 ++ u8 data_type ++ u32le data_value)
      = fun (b : List Nat) (a : Attr) => b ++ attrRecordSpec a := by
    funext b a
    obtain ⟨ans, anm, raw, dt, dv⟩ := a
    simp [attrRecordSpec, List.append_assoc]
  rw [hfun, foldl_append_flatMap]

/-- C8: an element start chunk is a 36-byte header followed by one 20-byte
record per attribute laying out namespace, name, raw value, size 8, reserved
byte 0, data type and data value in that order; an absent namespace or raw
value is the sentinel `0xFFFFFFFF`, never 0; a string attribute carries
`(TYPE_STRING, stringIndex)`; an end element chunk is a fixed 24-byte chunk
with the same sentinel-or-index encoding. -/
theorem element_chunk_layout (ns : Option Nat) (name : Nat)
    (attrs : List Attr) :
    start_element_chunk ns name attrs = startElementSpec ns name attrs
    ∧ (start_element_chunk ns name attrs).length = 36 + 20 * attrs.length
    ∧ end_element_chunk ns name
        = u16le RES_XML_END_ELEMENT_TYPE ++ u16le 24 ++ u32le 24 ++ u32le 0
          ++ u32le 0 ++ u32le (optIdx ns) ++ u32le name
    ∧ (end_element_chunk ns name).length = 24
    ∧ optIdx none = 0xFFFFFFFF ∧ optIdx none ≠ 0
    ∧ (∀ i, optIdx (some i) = i)
    ∧ ∀ nsIdx nameIdx s,
        attrRecordSpec (nsIdx, nameIdx, some s, (DATA_TYPE_STRING, s))
          = u32le (optIdx nsIdx) ++ u32le nameIdx ++ u32le s ++ u16le 8
            ++ [0] ++ [DATA_TYPE_STRING] ++ u32le s := by
  refine ⟨start_element_chunk_eq ns name attrs, ?_, rfl, ?_, rfl, by decide,
    fun i => rfl, fun nsIdx nameIdx s => rfl⟩
  · rw [start_element_chunk_eq ns name attrs]
    unfold startElementSpec
    simp only [List.length_append, flatMap_attrRecord_length, u16le, u32le,
      List.length_cons, List.length_nil]
  · simp [end_element_chunk, u16le, u32le]

/-- C2 evidence: the single resource-map entry `0x01010003` sits at position
0, but the pool string at index 0 is `"manifest"`, not the attribute name
`"name"`, which the encoder itself places at index 9 — the positional
alignment the spec requires does not hold in the produced document. -/
theorem resource_map_misalignment :
    manifestStrings.get? 0 = some "manifest"
    ∧ (makeMapping manifestStrings).lookup "name" = some 9
    ∧ build_resource_map [ANDROID_NAME_RESOURCE_ID]
        = u16le RES_XML_RESOURCE_MAP_TYPE ++ u16le 8 ++ u32le 12
          ++ u32le ANDROID_NAME_RESOURCE_ID
    ∧ (build_resource_map [ANDROID_NAME_RESOURCE_ID]).length = 12
    ∧ manifestStrings.get? 0 ≠ some "name" := by
  exact ⟨rfl, rfl, rfl, rfl, by decide⟩

/-- C1: every chunk in the buffer produced by `build_manifest` declares a
total size equal to its actual serialized extent; the outer chunk declares
header size 8 and total size equal to the whole buffer, which is 8 plus the
summed sizes of all nested chunks. -/
theorem total_size_invariant :
    (manifestChunks.map fun cs =>
        cs.all fun c => (c.length == readU32 c 4) && decide (readU16 c 2 ≤ c.length))
      = .ok true
    ∧ (build_manifest.map fun buf =>
        (readU32 buf 4 == buf.length) && (readU16 buf 2 == 8)
          && (readU16 buf 0 == RES_XML_TYPE)) = .ok true
    ∧ (manifestChunks.map fun cs => build_manifest.map fun buf =>
        buf.length == 8 + (cs.map List.length).sum) = .ok (.ok true) :=
  ⟨rfl, rfl, rfl⟩

/-- C7: the document's chunks come in the fixed order string pool, resource
map, namespace start, the element start/end sequence of the manifest tree,
then namespace end; each element start has exactly one matching end with
identical namespace and name indices, and the pairs nest stack-balanced;
the starts carry the expected attribute counts and attribute name indices. -/
theorem chunk_order_and_balance :
    (manifestChunks.map fun cs => cs.map fun c => readU16 c 0)
      = .ok [RES_STRING_POOL_TYPE, RES_XML_RESOURCE_MAP_TYPE,
             RES_XML_START_NAMESPACE_TYPE, RES_XML_START_ELEMENT_TYPE,
             RES_XML_START_ELEMENT_TYPE, RES_XML_START_ELEMENT_TYPE,
             RES_XML_START_ELEMENT_TYPE, RES_XML_START_ELEMENT_TYPE,
             RES_XML_END_ELEMENT_TYPE, RES_XML_START_ELEMENT_TYPE,
             RES_XML_END_ELEMENT_TYPE, RES_XML_END_ELEMENT_TYPE,
             RES_XML_END_ELEMENT_TYPE, RES_XML_END_ELEMENT_TYPE,
             RES_XML_END_ELEMENT_TYPE, RES_XML_END_NAMESPACE_TYPE]
    ∧ (manifestChunks.map fun cs => elemSigs cs)
      = .ok [(0x0102, 0xFFFFFFFF, 0), (0x0102, 0xFFFFFFFF, 4), (0x0102, 1, 5),
             (0x0102, 0xFFFFFFFF, 6), (0x0102, 1, 7), (0x0103, 1, 7),
             (0x0102, 1, 8), (0x0103, 1, 8), (0x0103, 0xFFFFFFFF, 6),
             (0x0103, 1, 5), (0x0103, 0xFFFFFFFF, 4), (0x0103, 0xFFFFFFFF, 0)]
    ∧ (manifestChunks.map fun cs => balancedChk [] (elemSigs cs)) = .ok true
    ∧ (manifestChunks.map fun cs =>
        (cs.filter fun c => readU16 c 0 == RES_XML_START_ELEMENT_TYPE).map
          fun c => (readU16 c 28, readU32 c 36, readU32 c 40))
      = .ok [(1, 0xFFFFFFFF, 3), (0, 0, 0), (1, 1, 9), (0, 0, 0), (1, 1, 9),
             (1, 1, 9)] :=
  ⟨rfl, rfl, rfl, rfl⟩

/-- C9: the encoder is deterministic — two invocations on the fixed
manifest produce identical results, and the encode succeeds. -/
theorem build_manifest_deterministic :
    ∀ u v : Unit, build_manifest_run u = build_manifest_run v
      ∧ exceptOk (build_manifest_run u) = true :=
  fun _ _ => ⟨rfl, rfl⟩

theorem flatMap_u32le_length (l : List Nat) :
    (l.flatMap u32le).length = 4 * l.length := by
  induction l with
  | nil => simp
  | cons a l ih =>
    simp only [List.flatMap_cons, List.length_append, ih, u32le,
      List.length_cons, List.length_nil]
    omega

theorem padWhile_length_mod (body : List Nat) :
    (padWhile body).length % 4 = 0 := by
  unfold padWhile
  simp only [List.length_append, List.length_replicate]
  omega

/-- C10: every chunk of the document buffer starts at a 4-byte-aligned
offset and declares a total size that is a multiple of 4, and the buffer
itself has 4-byte-aligned length; in general the string pool chunk, thanks
to its trailing padding, always has a length that is a multiple of 4. -/
theorem chunk_alignment :
    (build_manifest.map fun buf =>
        alignWalk buf 8 17 && (buf.length % 4 == 0) && (readU32 buf 4 % 4 == 0))
      = .ok true
    ∧ ∀ strings chunk m, build_string_pool strings = .ok (chunk, m) →
        chunk.length % 4 = 0 := by
  refine ⟨rfl, ?_⟩
  intro strings chunk m hok
  rw [build_string_pool_eq] at hok
  cases h3 : entriesOf strings with
  | error e =>
    rw [h3] at hok
    simp only [Except.map] at hok
    cases hok
  | ok es =>
    rw [h3] at hok
    simp only [Except.map] at hok
    cases hok
    have hpad := padWhile_length_mod es.flatten
    simp only [List.length_append, flatMap_u32le_length, u16le, u32le,
      List.length_cons, List.length_nil]
    omega

/-- Witness for C10's string-pool conjunct at the concrete input `["a"]`. -/
theorem chunk_alignment_witness :
    ∃ chunk m, build_string_pool ["a"] = .ok (chunk, m)
      ∧ chunk.length % 4 = 0 :=
  ⟨_, _, rfl, chunk_alignment.2 ["a"] _ _ rfl⟩

end ManualApkBuilder
